import Mathlib

/-!
Shallow embedding of the blob-heap module (`src/heap.rs`) of the sled
storage engine, together with proofs settling the frozen claims about it.

Machine integers (`u64`, `u32`, `u8`) are modelled as `Nat`; every claim
restricts sizes below `2^48` and indices below `2^32`, a range on which the
Rust arithmetic in this module never overflows, so the `Nat` translation is
exact there.  Fallible steps (the `try_from(..).unwrap()` range checks,
array indexing, I/O outcomes) are made explicit with `Option`/outcome types.
-/

namespace Sled

/-- `MIN_SZ`: the smallest slot size, 64 KiB in the production build
(`#[cfg(not(feature = "testing"))] const MIN_SZ: u64 = 64 * 1024`). -/
def MIN_SZ : Nat := 64 * 1024

/-- Fuel-indexed trailing-zero counter for a positive number: the model of
`u64::trailing_zeros` on nonzero inputs. -/
def tzAux : Nat → Nat → Nat
  | 0, _ => 0
  | fuel + 1, x => if x % 2 = 1 then 0 else 1 + tzAux fuel (x / 2)

/-- Model of `u64::trailing_zeros`: 64 on input `0`, otherwise the number of
trailing zero bits. -/
def u64TrailingZeros (x : Nat) : Nat :=
  if x = 0 then 64 else tzAux 64 x

/-- `MIN_TRAILING_ZEROS = MIN_SZ.trailing_zeros()`. -/
def MIN_TRAILING_ZEROS : Nat := u64TrailingZeros MIN_SZ

/-- Doubling loop computing the least power of two that is at least `n`;
with fuel 64 this covers every `u64`.  Models `u64::next_power_of_two`. -/
def nptLoop : Nat → Nat → Nat → Nat
  | 0, p, _ => p
  | fuel + 1, p, n => if n ≤ p then p else nptLoop fuel (2 * p) n

/-- Model of `u64::next_power_of_two` (on the overflow-free range used by
the heap). -/
def nextPowerOfTwo (n : Nat) : Nat := nptLoop 64 1 n

/-- `size_to_slab_id` from `heap.rs`:
`max(MIN_SZ, size.next_power_of_two()) >> MIN_TRAILING_ZEROS`, then
`trailing_zeros`. -/
def size_to_slab_id (size : Nat) : Nat :=
  let normalized_size := max MIN_SZ (nextPowerOfTwo size)
  let rebased_size := normalized_size >>> MIN_TRAILING_ZEROS
  u64TrailingZeros rebased_size

/-- `slab_id_to_size` from `heap.rs`: `1 << (MIN_TRAILING_ZEROS + slab_id)`. -/
def slab_id_to_size (slab_id : Nat) : Nat :=
  1 <<< (MIN_TRAILING_ZEROS + slab_id)

/-- `slab_size` from `heap.rs`. -/
def slab_size (size : Nat) : Nat :=
  slab_id_to_size (size_to_slab_id size)

/-- Model of the allocation-routing part of `Heap::reserve`: the assertion
`assert!(size < 1 << 48)` (its failure modelled as `none`), then the index
`self.slabs[slab_id as usize]` into the fixed `[Slab; 32]` array, whose
bounds check is modelled by the `slab_id < 32` test (`none` on a panic). -/
def heapReserveSlab (size : Nat) : Option Nat :=
  if size < 2 ^ 48 then
    let slab_id := size_to_slab_id size
    if slab_id < 32 then some slab_id else none
  else none

/-- `IDX_MASK` from `HeapId::decompose`: `(1 << 32) - 1`. -/
def IDX_MASK : Nat := (1 <<< 32) - 1

/-- `HeapId::compose`: `(1 << (32 + slab_id)) | slab_idx`. -/
def compose (slab_id slab_idx : Nat) : Nat :=
  (1 <<< (32 + slab_id)) ||| slab_idx

/-- `HeapId::decompose` with the `try_from` conversions collapsed (they are
shown to always succeed by `decomposeChecked_total`). -/
def decompose (id : Nat) : Nat × Nat :=
  (u64TrailingZeros (id >>> 32), id &&& IDX_MASK)

/-- Model of `u8::try_from` on a `Nat`. -/
def u8TryFrom (n : Nat) : Option Nat :=
  if n < 256 then some n else none

/-- Model of `u32::try_from` on a `Nat`. -/
def u32TryFrom (n : Nat) : Option Nat :=
  if n < 2 ^ 32 then some n else none

/-- `HeapId::decompose` with its two `try_from(..).unwrap()` steps kept
explicit: `none` models a panicking `unwrap`. -/
def decomposeChecked (id : Nat) : Option (Nat × Nat) :=
  match u8TryFrom (u64TrailingZeros (id >>> 32)) with
  | none => none
  | some slab_id =>
    match u32TryFrom (id &&& IDX_MASK) with
    | none => none
    | some slab_idx => some (slab_id, slab_idx)

/-- Initial value of the process-wide flag
`static HOLE_PUNCHING_ENABLED: AtomicBool = AtomicBool::new(false)` in
`Slab::punch_hole` (`heap.rs`). -/
def HOLE_PUNCHING_ENABLED_START : Bool := false

/-- `Slab::punch_hole`: given the current flag and whether the `fallocate`
syscall would fail, returns the new flag value and whether the function
returns `Ok(())` (it always does — a syscall failure is only logged and
disables the flag). -/
def punchHole (enabled : Bool) (syscallFails : Bool) : Bool × Bool :=
  if enabled then
    if syscallFails then (false, true) else (enabled, true)
  else (enabled, true)

/-- The state of one `Slab` that `reserve`/`free` touch: the atomic `tip`
counter and the free-list stack (top of the Treiber stack = list head). -/
structure SlabState where
  tip : Nat
  free : List Nat
deriving DecidableEq, Repr

/-- `Slab::reserve`, allocation part: pop the free list if non-empty,
otherwise `tip.fetch_add(1)` (which returns the old tip). -/
def slabReserve (s : SlabState) : Nat × SlabState :=
  match s.free with
  | idx :: rest => (idx, ⟨s.tip, rest⟩)
  | [] => (s.tip, ⟨s.tip + 1, []⟩)

/-- `Slab::free`: push the index onto the free list (the preceding
`punch_hole` call never fails and does not touch allocation state). -/
def slabFree (s : SlabState) (idx : Nat) : SlabState :=
  ⟨s.tip, idx :: s.free⟩

/-- The fields of a `Reservation` that govern slot release. -/
structure Reservation where
  completed : Bool
  idx : Nat
  size : Nat
deriving DecidableEq, Repr

/-- `impl Drop for Reservation`: push `idx` onto the slab's free list
exactly when the reservation was not completed. -/
def reservationDrop (r : Reservation) (free : List Nat) : List Nat :=
  if r.completed then free else r.idx :: free

/-- `Reservation::abort`: consumes the reservation; all logic is in `Drop`. -/
def reservationAbort (r : Reservation) (free : List Nat) : List Nat :=
  reservationDrop r free

/-- Outcome of the two fallible I/O steps inside `Reservation::complete`. -/
inductive IoOutcome where
  | success
  | writeFailed
  | syncFailed
deriving DecidableEq, Repr

/-- Result of `Reservation::complete`. -/
inductive CompleteResult where
  | panicked
  | ioError
  | ok (heapId : Nat)
deriving DecidableEq, Repr

/-- `Reservation::complete`: asserts `data.len() == slab_size(size)`
(failure modelled as `panicked`), then `write_at`/`sync_all` (an error on
either propagates with `?` before `completed` is set), then sets
`completed = true` and returns the composed heap id.  The second component
is the reservation value as it stands when it is subsequently dropped. -/
def reservationComplete (r : Reservation) (dataLen : Nat) (io : IoOutcome) :
    CompleteResult × Reservation :=
  if dataLen ≠ slab_size r.size then (.panicked, r)
  else
    match io with
    | .writeFailed => (.ioError, r)
    | .syncFailed => (.ioError, r)
    | .success =>
      (.ok (compose (size_to_slab_id r.size) r.idx), { r with completed := true })

/-- One step of the CRC-32 (IEEE, polynomial `0xEDB88320`) bit loop. -/
def crc32Round (c : Nat) : Nat :=
  if c % 2 = 1 then (c / 2) ^^^ 0xEDB88320 else c / 2

/-- Fold one byte into a CRC-32 state. -/
def crc32Byte (crc b : Nat) : Nat :=
  (List.range 8).foldl (fun c _ => crc32Round c) (crc ^^^ b)

/-- CRC-32 of a byte sequence, the model of the `crc32fast` hasher used by
`heap.rs`. -/
def crc32 (data : List Nat) : Nat :=
  (data.foldl crc32Byte 0xFFFFFFFF) ^^^ 0xFFFFFFFF

/-- `u32::from_le_bytes` on four bytes. -/
def leU32 (b0 b1 b2 b3 : Nat) : Nat :=
  b0 + 256 * (b1 + 256 * (b2 + 256 * b3))

/-- The little-endian byte decomposition of a `u32` value. -/
def u32LeBytes (n : Nat) : List Nat :=
  [n % 256, n / 256 % 256, n / 65536 % 256, n / 16777216 % 256]

/-- Result of `Slab::read` (the I/O succeeded; corruption is the checksum
mismatch branch). -/
inductive ReadResult where
  | corruption
  | ok (kind : Nat) (payload : List Nat)
deriving DecidableEq, Repr

/-- The decode part of `Slab::read` applied to the slot-sized buffer as
read: stored checksum from bytes 1..5 little-endian, recomputed CRC-32 over
byte 0 and bytes 5.., equality decides between the `(kind, payload)` result
and the corruption error. -/
def slotDecode (useCompression : Bool) (decompress : List Nat → List Nat)
    (buf : List Nat) : ReadResult :=
  let storedCrc := leU32 (buf.getD 1 0) (buf.getD 2 0) (buf.getD 3 0) (buf.getD 4 0)
  let actualCrc := crc32 (buf.getD 0 0 :: buf.drop 5)
  if actualCrc = storedCrc then
    let payload := buf.drop 5
    .ok (buf.getD 0 0) (if useCompression then decompress payload else payload)
  else .corruption

/-- `Slab::read`: reads exactly one slot-sized (`bs`) buffer at offset
`slab_idx * bs` from the file (modelled as a byte function on offsets) and
decodes it.  `decompress` stands for the external
`crate::pagecache::decompress` collaborator. -/
def slabRead (disk : Nat → Nat) (bs slab_idx : Nat) (useCompression : Bool)
    (decompress : List Nat → List Nat) : ReadResult :=
  let offset := slab_idx * bs
  let buf := (List.range bs).map fun i => disk (offset + i)
  slotDecode useCompression decompress buf

/-- The positional `write_at` of `Reservation::complete`: the file with
`data` written at offset `idx * bs`. -/
def writeSlot (disk : Nat → Nat) (bs idx : Nat) (data : List Nat) : Nat → Nat :=
  fun off =>
    if idx * bs ≤ off ∧ off < idx * bs + bs then data.getD (off - idx * bs) 0
    else disk off

/-- Modelled from the spec: the record construction of §4.6 lives in the
page-cache module, which is not part of the provided sources; per the spec
the caller supplies `kind` and a (pre-padded) payload and the record is
`[kind][CRC-32 of kind ++ payload, little-endian][payload]`. -/
def encodeRecord (kind : Nat) (payload : List Nat) : List Nat :=
  kind :: u32LeBytes (crc32 (kind :: payload)) ++ payload

/-- Whole-slab state for the allocation-discipline claims: `tip`, the free
list, and the indices held by currently open (uncompleted) reservations. -/
structure HState where
  tip : Nat
  free : List Nat
  opened : List Nat
deriving DecidableEq, Repr

/-- The operations a client can perform against one slab. -/
inductive Op where
  | reserve
  | complete (idx : Nat)
  | drop (idx : Nat)
  | free (idx : Nat)
deriving DecidableEq, Repr

/-- Small-step semantics of the slab operations, from `Slab::reserve`,
`Reservation::complete` (success path), `impl Drop for Reservation` and
`Slab::free`.  `complete`/`drop` apply only to an open reservation. -/
def stepOp (s : HState) : Op → Option HState
  | .reserve =>
    let (idx, s2) := slabReserve ⟨s.tip, s.free⟩
    some ⟨s2.tip, s2.free, idx :: s.opened⟩
  | .complete idx =>
    if idx ∈ s.opened then some ⟨s.tip, s.free, s.opened.erase idx⟩ else none
  | .drop idx =>
    if idx ∈ s.opened then some ⟨s.tip, idx :: s.free, s.opened.erase idx⟩ else none
  | .free idx => some ⟨s.tip, idx :: s.free, s.opened⟩

/-- Run a sequence of operations. -/
def runOps : HState → List Op → Option HState
  | s, [] => some s
  | s, op :: rest =>
    match stepOp s op with
    | some s2 => runOps s2 rest
    | none => none

/-- States reachable from a fresh slab (empty free list, no open
reservations, arbitrary recovered tip) under the free-discipline that
`free` is invoked only on an allocated index that is neither currently
open nor already on the free list. -/
inductive Reachable : HState → Prop where
  | start (tip0 : Nat) : Reachable ⟨tip0, [], []⟩
  | reserve {s s2 : HState} : Reachable s →
      stepOp s .reserve = some s2 → Reachable s2
  | complete {s s2 : HState} {i : Nat} : Reachable s →
      stepOp s (.complete i) = some s2 → Reachable s2
  | drop {s s2 : HState} {i : Nat} : Reachable s →
      stepOp s (.drop i) = some s2 → Reachable s2
  | free {s s2 : HState} {i : Nat} : Reachable s →
      i < s.tip → i ∉ s.opened → i ∉ s.free →
      stepOp s (.free i) = some s2 → Reachable s2

/-- The allocation invariant maintained by the slab discipline. -/
def Inv (s : HState) : Prop :=
  s.opened.Nodup ∧ s.free.Nodup ∧
  (∀ i ∈ s.free, i ∉ s.opened) ∧
  (∀ i ∈ s.free, i < s.tip) ∧
  (∀ i ∈ s.opened, i < s.tip)

/-! ## Helper lemmas: trailing zeros and next power of two -/

theorem tzAux_two_pow (c : Nat) : ∀ f, c < f → tzAux f (2 ^ c) = c := by
  induction c with
  | zero =>
    intro f hf
    match f, hf with
    | f + 1, _ => simp [tzAux]
  | succ c ih =>
    intro f hf
    match f, hf with
    | f + 1, hf =>
      have h2 : 2 ^ (c + 1) % 2 = 0 := by
        rw [Nat.pow_succ]; exact Nat.mul_mod_left _ _
      have h3 : 2 ^ (c + 1) / 2 = 2 ^ c := by
        rw [Nat.pow_succ]; exact Nat.mul_div_cancel _ (by norm_num)
      simp only [tzAux, h2]
      norm_num
      rw [h3, ih f (by omega)]
      omega

theorem u64TrailingZeros_two_pow (c : Nat) (h : c < 64) :
    u64TrailingZeros (2 ^ c) = c := by
  unfold u64TrailingZeros
  rw [if_neg (Nat.pow_pos (show 0 < 2 by norm_num)).ne']
  exact tzAux_two_pow c 64 h

theorem tzAux_le (f : Nat) : ∀ x, tzAux f x ≤ f := by
  induction f with
  | zero => intro x; simp [tzAux]
  | succ f ih =>
    intro x
    unfold tzAux
    split
    · omega
    · have := ih (x / 2); omega

theorem u64TrailingZeros_le (x : Nat) : u64TrailingZeros x ≤ 64 := by
  unfold u64TrailingZeros
  split
  · exact le_refl 64
  · exact tzAux_le 64 x

theorem nptLoop_spec : ∀ (f j n : Nat), n ≤ 2 ^ (j + f) →
    ∃ k, j ≤ k ∧ nptLoop f (2 ^ j) n = 2 ^ k ∧ n ≤ 2 ^ k ∧
      ∀ m, j ≤ m → n ≤ 2 ^ m → k ≤ m := by
  intro f
  induction f with
  | zero =>
    intro j n h
    exact ⟨j, le_refl j, rfl, by simpa using h, fun m hm _ => hm⟩
  | succ f ih =>
    intro j n h
    by_cases hle : n ≤ 2 ^ j
    · exact ⟨j, le_refl j, by simp [nptLoop, hle], hle, fun m hm _ => hm⟩
    · have h2 : 2 * 2 ^ j = 2 ^ (j + 1) := by ring
      have h' : n ≤ 2 ^ (j + 1 + f) := by
        have he : j + 1 + f = j + (f + 1) := by omega
        rw [he]; exact h
      obtain ⟨k, hk1, hk2, hk3, hk4⟩ := ih (j + 1) n h'
      refine ⟨k, by omega, ?_, hk3, ?_⟩
      · have hstep : nptLoop (f + 1) (2 ^ j) n = nptLoop f (2 * 2 ^ j) n := by
          simp [nptLoop, hle]
        rw [hstep, h2, hk2]
      · intro m hm hnm
        have hmj : j + 1 ≤ m := by
          rcases Nat.eq_or_lt_of_le hm with he | hl
          · exact absurd (he ▸ hnm) hle
          · omega
        exact hk4 m hmj hnm

theorem nextPowerOfTwo_spec (n : Nat) (h : n ≤ 2 ^ 64) :
    ∃ k, nextPowerOfTwo n = 2 ^ k ∧ n ≤ 2 ^ k ∧ ∀ m, n ≤ 2 ^ m → k ≤ m := by
  obtain ⟨k, _, hk2, hk3, hk4⟩ := nptLoop_spec 64 0 n (by simpa using h)
  refine ⟨k, ?_, hk3, fun m hm => hk4 m (Nat.zero_le m) hm⟩
  have h1 : (2 : Nat) ^ 0 = 1 := rfl
  unfold nextPowerOfTwo
  rw [← h1]; exact hk2

theorem MIN_TRAILING_ZEROS_eq : MIN_TRAILING_ZEROS = 16 := by decide

theorem slab_id_to_size_eq (c : Nat) : slab_id_to_size c = 2 ^ (16 + c) := by
  unfold slab_id_to_size
  rw [MIN_TRAILING_ZEROS_eq, Nat.shiftLeft_eq, one_mul]

/-- Characterization of the size-class codec on the sub-`2^48` range. -/
theorem size_to_slab_id_char (s : Nat) (h48 : s < 2 ^ 48) :
    ∃ k, nextPowerOfTwo s = 2 ^ k ∧ s ≤ 2 ^ k ∧ k ≤ 48 ∧
      (∀ m, s ≤ 2 ^ m → k ≤ m) ∧
      size_to_slab_id s = max 16 k - 16 ∧
      slab_size s = 2 ^ max 16 k ∧
      slab_size s = max MIN_SZ (nextPowerOfTwo s) := by
  obtain ⟨k, hnpt, hge, hmin⟩ := nextPowerOfTwo_spec s
    (le_trans (le_of_lt h48) (Nat.pow_le_pow_right (by norm_num) (by norm_num)))
  have hk48 : k ≤ 48 := hmin 48 (le_of_lt h48)
  have hMSZ : MIN_SZ = 2 ^ 16 := by decide
  have hmax : max MIN_SZ (2 ^ k) = 2 ^ max 16 k := by
    rw [hMSZ]
    rcases Nat.le_total 16 k with h | h
    · rw [Nat.max_eq_right h,
        Nat.max_eq_right (Nat.pow_le_pow_right (by norm_num) h)]
    · rw [Nat.max_eq_left h,
        Nat.max_eq_left (Nat.pow_le_pow_right (by norm_num) h)]
  have hshr : 2 ^ max 16 k >>> 16 = 2 ^ (max 16 k - 16) := by
    rw [Nat.shiftRight_eq_div_pow]
    exact Nat.pow_div (le_max_left 16 k) (by norm_num)
  have htz : u64TrailingZeros (2 ^ (max 16 k - 16)) = max 16 k - 16 :=
    u64TrailingZeros_two_pow _ (by omega)
  have hid : size_to_slab_id s = max 16 k - 16 := by
    show u64TrailingZeros (max MIN_SZ (nextPowerOfTwo s) >>> MIN_TRAILING_ZEROS)
      = max 16 k - 16
    rw [hnpt, hmax, MIN_TRAILING_ZEROS_eq, hshr, htz]
  have hsz : slab_size s = 2 ^ max 16 k := by
    unfold slab_size
    rw [hid, slab_id_to_size_eq]
    congr 1
    omega
  refine ⟨k, hnpt, hge, hk48, hmin, hid, hsz, ?_⟩
  rw [hsz, hnpt, hmax]

/-- C5: for every size `s` with `0 < s < 2^48`, the slot size of the class
computed by `size_to_slab_id` is at least `s`, it equals
`max MIN_SZ (next power of two of s)`, and that class is the smallest one
whose slot size is at least `s`. -/
theorem size_class_smallest_sufficient (s : Nat) (h0 : 0 < s) (h48 : s < 2 ^ 48) :
    s ≤ slab_size s ∧
    slab_size s = max MIN_SZ (nextPowerOfTwo s) ∧
    ∀ c : Nat, s ≤ slab_id_to_size c → size_to_slab_id s ≤ c := by
  obtain ⟨k, hnpt, hge, hk48, hmin, hid, hsz, hsz'⟩ := size_to_slab_id_char s h48
  refine ⟨?_, hsz', ?_⟩
  · rw [hsz]
    exact le_trans hge (Nat.pow_le_pow_right (by norm_num) (le_max_right 16 k))
  · intro c hc
    rw [slab_id_to_size_eq] at hc
    have hkc := hmin (16 + c) hc
    rw [hid]
    omega

theorem size_class_smallest_sufficient_witness :
    100000 ≤ slab_size 100000 ∧ size_to_slab_id 100000 ≤ 1 :=
  ⟨(size_class_smallest_sufficient 100000 (by decide) (by decide)).1,
   (size_class_smallest_sufficient 100000 (by decide) (by decide)).2.2 1 (by decide)⟩

/-- C1 (code bug): the size `2^47 + 1` passes the `assert!(size < 1 << 48)`
precondition of `Heap::reserve`, yet `size_to_slab_id` maps it to class 32,
which is not strictly less than 32, so the index into the fixed
`[Slab; 32]` array is out of bounds and `reserve` panics instead of
reaching a `Slab`. -/
theorem heap_reserve_out_of_bounds :
    2 ^ 47 + 1 < 2 ^ 48 ∧
    size_to_slab_id (2 ^ 47 + 1) = 32 ∧
    heapReserveSlab (2 ^ 47 + 1) = none := by decide

/-! ## Slot identifier: compose / decompose -/

theorem IDX_MASK_eq : IDX_MASK = 2 ^ 32 - 1 := by decide

theorem compose_eq (c i : Nat) : compose c i = 2 ^ (32 + c) ||| i := by
  unfold compose
  rw [Nat.shiftLeft_eq, one_mul]

theorem compose_shiftRight (c i : Nat) (hi : i < 2 ^ 32) :
    compose c i >>> 32 = 2 ^ c := by
  rw [compose_eq]
  apply Nat.eq_of_testBit_eq
  intro j
  rw [Nat.testBit_shiftRight, Nat.testBit_lor,
    Nat.testBit_lt_two_pow
      (lt_of_lt_of_le hi (Nat.pow_le_pow_right (by norm_num) (by omega))),
    Bool.or_false]
  simp only [Nat.testBit_two_pow, decide_eq_decide]
  omega

theorem compose_land_mask (c i : Nat) (hi : i < 2 ^ 32) :
    compose c i &&& IDX_MASK = i := by
  rw [compose_eq, IDX_MASK_eq, Nat.and_pow_two_sub_one_eq_mod]
  apply Nat.eq_of_testBit_eq
  intro j
  rw [Nat.testBit_mod_two_pow, Nat.testBit_lor]
  by_cases hj : j < 32
  · simp [hj, Nat.testBit_two_pow_of_ne (show 32 + c ≠ j by omega)]
  · have h1 : Nat.testBit i j = false :=
      Nat.testBit_lt_two_pow
        (lt_of_lt_of_le hi (Nat.pow_le_pow_right (by norm_num) (by omega)))
    simp [hj, h1]

theorem decompose_compose_eq (c i : Nat) (hc : c < 32) (hi : i < 2 ^ 32) :
    decompose (compose c i) = (c, i) := by
  unfold decompose
  rw [compose_shiftRight c i hi, compose_land_mask c i hi,
    u64TrailingZeros_two_pow c (by omega)]

/-- C4: for every class strictly less than 32 and every 32-bit index,
`decompose (compose class index) = (class, index)`: `compose` sets the
single upper bit at position `class` and packs `index` into the low 32
bits, and `decompose` recovers both exactly. -/
theorem decompose_compose_roundtrip (c i : Nat) (hc : c < 32) (hi : i < 2 ^ 32) :
    decompose (compose c i) = (c, i) :=
  decompose_compose_eq c i hc hi

theorem decompose_compose_roundtrip_witness :
    decompose (compose 5 77) = (5, 77) :=
  decompose_compose_roundtrip 5 77 (by decide) (by decide)

/-- C10 (counterexample): the identifier `0` is not produced by `compose`
(every composed identifier has a set bit among its upper 32 bits), yet
`decompose` does not fail on it: both internal `try_from(..).unwrap()`
checks succeed and it silently returns the nonexistent class 64. -/
theorem decompose_malformed_succeeds :
    decomposeChecked 0 = some (64, 0) ∧ ¬ 64 < 32 := by decide

/-- C10 (amended): `decompose` is pure and total — its internal range
checks never fail, even on identifiers not produced by `compose` — and for
every identifier produced by `compose` from a class below 32 and a 32-bit
index it succeeds and returns the original pair. -/
theorem decompose_total_roundtrip (id c i : Nat) (hc : c < 32) (hi : i < 2 ^ 32) :
    (decomposeChecked id).isSome = true ∧
    decomposeChecked (compose c i) = some (c, i) := by
  constructor
  · have h1 : u64TrailingZeros (id >>> 32) < 256 :=
      lt_of_le_of_lt (u64TrailingZeros_le _) (by norm_num)
    have h2 : id &&& IDX_MASK < 2 ^ 32 := by
      rw [IDX_MASK_eq, Nat.and_pow_two_sub_one_eq_mod]
      exact Nat.mod_lt _ (by norm_num)
    unfold decomposeChecked u8TryFrom u32TryFrom
    rw [if_pos h1, if_pos h2]
    rfl
  · have h1 : u64TrailingZeros (compose c i >>> 32) = c := by
      rw [compose_shiftRight c i hi, u64TrailingZeros_two_pow c (by omega)]
    have h2 : compose c i &&& IDX_MASK = i := compose_land_mask c i hi
    unfold decomposeChecked u8TryFrom u32TryFrom
    rw [h1, h2, if_pos (show c < 256 by omega), if_pos hi]

theorem decompose_total_roundtrip_witness :
    (decomposeChecked 12345).isSome = true ∧
    decomposeChecked (compose 3 9) = some (3, 9) :=
  decompose_total_roundtrip 12345 3 9 (by decide) (by decide)

/-- C3 (code bug): the process-wide hole-punching flag
`HOLE_PUNCHING_ENABLED` is initialized to `false` in `Slab::punch_hole`,
i.e. hole punching starts disabled — contradicting the specified
starts-enabled behavior and making the disable-on-first-failure branch
unreachable; `punch_hole` (and hence `free`) still never propagates a
hole-punch failure as an error. -/
theorem hole_punching_starts_disabled :
    HOLE_PUNCHING_ENABLED_START = false ∧
    punchHole HOLE_PUNCHING_ENABLED_START false = (false, true) ∧
    punchHole HOLE_PUNCHING_ENABLED_START true = (false, true) := by decide

/-! ## Reservation release and slab allocation -/

/-- C2: a reservation that has not reached the completed state has its slot
index pushed back onto the free list exactly once when it is discarded —
on a plain drop, on an explicit `abort`, and after `complete` returned an
I/O error from the write or the sync (the reservation is then still
uncompleted, so the drop path pushes it); a successfully completed
reservation is not pushed. -/
theorem reservation_released_exactly_once (r : Reservation) (F : List Nat)
    (dataLen : Nat) (io : IoOutcome) (hc : r.completed = false) :
    reservationDrop r F = r.idx :: F ∧
    (reservationDrop r F).count r.idx = F.count r.idx + 1 ∧
    reservationAbort r F = r.idx :: F ∧
    (io ≠ IoOutcome.success →
      (reservationComplete r dataLen io).2.completed = false ∧
      reservationDrop (reservationComplete r dataLen io).2 F = r.idx :: F) ∧
    (dataLen = slab_size r.size →
      (reservationComplete r dataLen IoOutcome.success).2.completed = true ∧
      reservationDrop (reservationComplete r dataLen IoOutcome.success).2 F = F) := by
  have hdrop : reservationDrop r F = r.idx :: F := by
    simp [reservationDrop, hc]
  refine ⟨hdrop, by rw [hdrop]; simp, by simp [reservationAbort, hdrop], ?_, ?_⟩
  · intro hio
    cases io with
    | success => exact absurd rfl hio
    | writeFailed =>
      unfold reservationComplete
      split
      · exact ⟨hc, hdrop⟩
      · exact ⟨hc, hdrop⟩
    | syncFailed =>
      unfold reservationComplete
      split
      · exact ⟨hc, hdrop⟩
      · exact ⟨hc, hdrop⟩
  · intro hdl
    unfold reservationComplete
    rw [if_neg (by omega)]
    exact ⟨rfl, by simp [reservationDrop]⟩

theorem reservation_released_exactly_once_witness :
    reservationDrop ⟨false, 7, 100⟩ [] = [7] :=
  (reservation_released_exactly_once ⟨false, 7, 100⟩ [] 0 IoOutcome.success rfl).1

/-- C8: `Slab::reserve` is a total function of the slab state: it returns
the head of the free list whenever the free list is non-empty, and
otherwise the fetch-and-increment result of the tip; after `free idx`, the
next reserve in the same class draws `idx` and leaves the tip unchanged
(no new tip growth). -/
theorem slab_reserve_pop_or_tip (s : SlabState) (idx : Nat) :
    (s.free = [] → slabReserve s = (s.tip, ⟨s.tip + 1, []⟩)) ∧
    (∀ i rest, s.free = i :: rest → slabReserve s = (i, ⟨s.tip, rest⟩)) ∧
    (slabReserve (slabFree s idx)).1 = idx ∧
    (slabReserve (slabFree s idx)).2.tip = s.tip := by
  refine ⟨?_, ?_, ?_, ?_⟩
  · intro h
    simp [slabReserve, h]
  · intro i rest h
    simp [slabReserve, h]
  · simp [slabReserve, slabFree]
  · simp [slabReserve, slabFree]

theorem slab_reserve_pop_or_tip_witness :
    (slabReserve (slabFree ⟨5, []⟩ 3)).1 = 3 ∧
    slabReserve ⟨4, [9]⟩ = (9, ⟨4, []⟩) :=
  ⟨(slab_reserve_pop_or_tip ⟨5, []⟩ 3).2.2.1,
   (slab_reserve_pop_or_tip ⟨4, [9]⟩ 0).2.1 9 [] rfl⟩

/-! ## Allocation discipline: no two open reservations share an index -/

theorem reachable_inv {s : HState} (h : Reachable s) : Inv s := by
  induction h with
  | start t =>
    exact ⟨List.nodup_nil, List.nodup_nil, by simp, by simp, by simp⟩
  | @reserve s s2 hr hstep ih =>
    obtain ⟨h1, h2, h3, h4, h5⟩ := ih
    rcases hf : s.free with _ | ⟨i, rest⟩
    · simp only [stepOp, slabReserve, hf, Option.some.injEq] at hstep
      subst hstep
      refine ⟨?_, List.nodup_nil, by simp, by simp, ?_⟩
      · rw [List.nodup_cons]
        exact ⟨fun hmem => absurd rfl (Nat.ne_of_lt (h5 _ hmem)).symm, h1⟩
      · intro j hj
        show j < s.tip + 1
        rcases List.mem_cons.mp hj with hj | hj
        · omega
        · have := h5 j hj; omega
    · simp only [stepOp, slabReserve, hf, Option.some.injEq] at hstep
      subst hstep
      rw [hf] at h2 h3 h4
      obtain ⟨hir, hrest⟩ := List.nodup_cons.mp h2
      refine ⟨?_, hrest, ?_, ?_, ?_⟩
      · rw [List.nodup_cons]
        exact ⟨h3 i (List.mem_cons_self i rest), h1⟩
      · intro j hj
        intro hmem
        rcases List.mem_cons.mp hmem with he | hmem
        · exact hir (he ▸ hj)
        · exact h3 j (List.mem_cons_of_mem i hj) hmem
      · intro j hj
        exact h4 j (List.mem_cons_of_mem i hj)
      · intro j hj
        rcases List.mem_cons.mp hj with he | hj
        · exact he ▸ h4 i (List.mem_cons_self i rest)
        · exact h5 j hj
  | @complete s s2 i hr hstep ih =>
    obtain ⟨h1, h2, h3, h4, h5⟩ := ih
    by_cases him : i ∈ s.opened
    · simp only [stepOp, him, if_pos, Option.some.injEq] at hstep
      subst hstep
      refine ⟨h1.erase i, h2, ?_, h4, ?_⟩
      · intro j hj hmem
        exact h3 j hj (List.erase_subset i s.opened hmem)
      · intro j hj
        exact h5 j (List.erase_subset i s.opened hj)
    · simp [stepOp, him] at hstep
  | @drop s s2 i hr hstep ih =>
    obtain ⟨h1, h2, h3, h4, h5⟩ := ih
    by_cases him : i ∈ s.opened
    · simp only [stepOp, him, if_pos, Option.some.injEq] at hstep
      subst hstep
      refine ⟨h1.erase i, ?_, ?_, ?_, ?_⟩
      · rw [List.nodup_cons]
        exact ⟨fun hif => h3 i hif him, h2⟩
      · intro j hj hmem
        rcases List.mem_cons.mp hj with he | hj
        · subst he
          exact absurd (h1.mem_erase_iff.mp hmem).1 (by simp)
        · exact h3 j hj (List.erase_subset i s.opened hmem)
      · intro j hj
        rcases List.mem_cons.mp hj with he | hj
        · exact he ▸ h5 i him
        · exact h4 j hj
      · intro j hj
        exact h5 j (List.erase_subset i s.opened hj)
    · simp [stepOp, him] at hstep
  | @free s s2 i hr hlt hnop hnfr hstep ih =>
    obtain ⟨h1, h2, h3, h4, h5⟩ := ih
    simp only [stepOp, Option.some.injEq] at hstep
    subst hstep
    refine ⟨h1, ?_, ?_, ?_, h5⟩
    · rw [List.nodup_cons]
      exact ⟨hnfr, h2⟩
    · intro j hj
      rcases List.mem_cons.mp hj with he | hj
      · exact he ▸ hnop
      · exact h3 j hj
    · intro j hj
      rcases List.mem_cons.mp hj with he | hj
      · exact he ▸ hlt
      · exact h4 j hj

/-- C9 (counterexample): the operation sequence reserve, complete 0,
free 0, free 0, reserve, reserve — a legal history except that the same
identifier is freed twice — reaches a state in which two simultaneously
open reservations both hold slot index 0, so the open indices are not
pairwise distinct. -/
theorem open_reservations_duplicate_trace :
    runOps ⟨0, [], []⟩
      [Op.reserve, Op.complete 0, Op.free 0, Op.free 0, Op.reserve, Op.reserve]
      = some ⟨1, [], [0, 0]⟩ ∧
    ¬ (HState.mk 1 [] [0, 0]).opened.Nodup := by decide

/-- C9 (amended): in every state reachable by reserve, complete, drop and
free operations in which `free` is only invoked on an allocated index that
is neither currently held by an open reservation nor already on the free
list (i.e. no double or premature free), the slot indices held by open
reservations are pairwise distinct. -/
theorem open_reservations_distinct (s : HState) (h : Reachable s) :
    s.opened.Nodup :=
  (reachable_inv h).1

theorem open_reservations_distinct_witness :
    (HState.mk 1 [] [0]).opened.Nodup :=
  open_reservations_distinct ⟨1, [], [0]⟩
    (Reachable.reserve (Reachable.start 0) rfl)

/-! ## Record codec: checksum validation and write/read round-trip -/

theorem map_range_getD (l : List Nat) :
    (List.range l.length).map (fun i => l.getD i 0) = l := by
  induction l with
  | nil => simp
  | cons a t ih =>
    rw [List.length_cons, List.range_succ_eq_map, List.map_cons, List.map_map]
    have hf : ((fun i => (a :: t).getD i 0) ∘ Nat.succ) = fun i => t.getD i 0 := by
      funext i
      simp
    rw [hf, ih]
    simp

theorem read_writeSlot (disk : Nat → Nat) (bs idx : Nat) (data : List Nat)
    (hlen : data.length = bs) :
    (List.range bs).map (fun i => writeSlot disk bs idx data (idx * bs + i))
      = data := by
  subst hlen
  have hcong : ∀ i ∈ List.range data.length,
      writeSlot disk data.length idx data (idx * data.length + i)
        = data.getD i 0 := by
    intro i hi
    rw [List.mem_range] at hi
    unfold writeSlot
    rw [if_pos ⟨Nat.le_add_right _ _, by omega⟩]
    congr 1
    omega
  rw [List.map_congr_left hcong, map_range_getD]

theorem crc32Round_lt (c : Nat) (hc : c < 2 ^ 32) : crc32Round c < 2 ^ 32 := by
  unfold crc32Round
  split
  · exact Nat.xor_lt_two_pow (by omega) (by norm_num)
  · omega

theorem crc32Byte_lt (c b : Nat) (hc : c < 2 ^ 32) (hb : b < 256) :
    crc32Byte c b < 2 ^ 32 := by
  unfold crc32Byte
  have hrounds : ∀ (n : Nat) (x : Nat), x < 2 ^ 32 →
      (List.range n).foldl (fun c _ => crc32Round c) x < 2 ^ 32 := by
    intro n
    induction n with
    | zero => intro x hx; simpa using hx
    | succ n ih =>
      intro x hx
      rw [List.range_succ, List.foldl_append, List.foldl_cons, List.foldl_nil]
      exact crc32Round_lt _ (ih x hx)
  exact hrounds 8 _ (Nat.xor_lt_two_pow hc (by omega))

theorem crc32_lt (l : List Nat) (hl : ∀ b ∈ l, b < 256) : crc32 l < 2 ^ 32 := by
  have hfold : ∀ (l : List Nat) (c : Nat), (∀ b ∈ l, b < 256) → c < 2 ^ 32 →
      l.foldl crc32Byte c < 2 ^ 32 := by
    intro l
    induction l with
    | nil => intro c _ hc; simpa using hc
    | cons a t ih =>
      intro c hm hc
      rw [List.foldl_cons]
      exact ih _ (fun b hb => hm b (List.mem_cons_of_mem a hb))
        (crc32Byte_lt c a hc (hm a (List.mem_cons_self a t)))
  unfold crc32
  exact Nat.xor_lt_two_pow (hfold l _ hl (by norm_num)) (by norm_num)

theorem leU32_u32LeBytes (n : Nat) (h : n < 2 ^ 32) :
    leU32 (n % 256) (n / 256 % 256) (n / 65536 % 256) (n / 16777216 % 256)
      = n := by
  unfold leU32
  omega

theorem slotDecode_encode (d : List Nat → List Nat) (K : Nat) (P : List Nat)
    (hcrc : crc32 (K :: P) < 2 ^ 32) :
    slotDecode false d (encodeRecord K P) = ReadResult.ok K P := by
  show (if crc32 (K :: P) =
        leU32 (crc32 (K :: P) % 256) (crc32 (K :: P) / 256 % 256)
          (crc32 (K :: P) / 65536 % 256) (crc32 (K :: P) / 16777216 % 256)
      then ReadResult.ok K P else ReadResult.corruption) = ReadResult.ok K P
  rw [leU32_u32LeBytes _ hcrc, if_pos rfl]

/-- C6: a record with kind `K` and (pre-padded) payload `P`, encoded per
the spec's record layout and written via `complete` into its slot, reads
back as exactly `(K, P)` with no error when no stored byte is altered and
the compression setting matches (uncompressed). -/
theorem record_write_read_roundtrip (disk : Nat → Nat) (bs idx K : Nat)
    (P : List Nat) (d : List Nat → List Nat)
    (hK : K < 256) (hP : ∀ b ∈ P, b < 256)
    (hlen : (encodeRecord K P).length = bs) :
    slabRead (writeSlot disk bs idx (encodeRecord K P)) bs idx false d
      = ReadResult.ok K P := by
  have hcrc : crc32 (K :: P) < 2 ^ 32 := by
    apply crc32_lt
    intro b hb
    rcases List.mem_cons.mp hb with he | hb
    · omega
    · exact hP b hb
  show slotDecode false d
    ((List.range bs).map fun i =>
      writeSlot disk bs idx (encodeRecord K P) (idx * bs + i))
    = ReadResult.ok K P
  rw [read_writeSlot disk bs idx _ hlen]
  exact slotDecode_encode d K P hcrc

theorem record_write_read_roundtrip_witness :
    slabRead (writeSlot (fun _ => 0) 5 0 (encodeRecord 7 [])) 5 0 false
      (fun x => x) = ReadResult.ok 7 [] :=
  record_write_read_roundtrip (fun _ => 0) 5 0 7 [] (fun x => x)
    (by decide) (by simp) (by decide)

/-- C7: `Slab::read` reads exactly the one slot-sized buffer at offset
`index * slot_size` (the buffer `buf` below), returns the corruption error
if and only if the stored checksum (bytes 1..5, little-endian) differs from
the CRC-32 recomputed over byte 0 and bytes 5.. of that buffer, and on a
checksum match with compression off returns exactly
`(kind = byte 0, payload = bytes 5..)` — never silently wrong data. -/
theorem slab_read_checksum_iff (disk : Nat → Nat) (bs idx : Nat)
    (d : List Nat → List Nat) (buf : List Nat) (h5 : 5 ≤ bs)
    (hbuf : buf = (List.range bs).map fun i => disk (idx * bs + i)) :
    (slabRead disk bs idx false d = ReadResult.corruption ↔
      leU32 (buf.getD 1 0) (buf.getD 2 0) (buf.getD 3 0) (buf.getD 4 0) ≠
        crc32 (buf.getD 0 0 :: buf.drop 5)) ∧
    (leU32 (buf.getD 1 0) (buf.getD 2 0) (buf.getD 3 0) (buf.getD 4 0) =
        crc32 (buf.getD 0 0 :: buf.drop 5) →
      slabRead disk bs idx false d
        = ReadResult.ok (buf.getD 0 0) (buf.drop 5)) := by
  have hread : slabRead disk bs idx false d = slotDecode false d buf := by
    rw [hbuf]; rfl
  rw [hread]
  unfold slotDecode
  by_cases hcond : crc32 (buf.getD 0 0 :: buf.drop 5) =
      leU32 (buf.getD 1 0) (buf.getD 2 0) (buf.getD 3 0) (buf.getD 4 0)
  · rw [if_pos hcond]
    constructor
    · constructor
      · intro h
        exact absurd h (by simp)
      · intro h
        exact absurd hcond.symm h
    · intro _
      simp
  · rw [if_neg hcond]
    constructor
    · constructor
      · intro _
        exact fun he => hcond he.symm
      · intro _
        rfl
    · intro h
      exact absurd h.symm hcond

theorem slab_read_checksum_iff_witness :
    slabRead (fun _ => 0) 5 0 false (fun x => x) = ReadResult.corruption :=
  (slab_read_checksum_iff (fun _ => 0) 5 0 (fun x => x) [0, 0, 0, 0, 0]
    (by decide) (by decide)).1.mpr (by decide)

end Sled
